import Mathlib

/-!
Shallow embedding of the chatroom server and client core logic
(presence registry, read receipts, chunked file transfer, PKCS7 unpadding,
client send gating, transport-gated pending queue, reconnection backoff),
together with theorems settling the specification claims.

Bytes are modelled as `List Nat`; Python dicts as association lists with
insert-or-update semantics; base64 encode/decode (a bijection on valid data)
is modelled as the identity on the decoded bytes.
-/

namespace Chatroom

/-- Byte strings are lists of naturals. -/
abbrev Bytes := List Nat

/-! ## Python dict / helper semantics -/

/-- Python dict lookup (`m.get(k)`): the unique binding for `k`, if present. -/
def dlookup {K V : Type} [DecidableEq K] (m : List (K × V)) (k : K) :
    Option V :=
  match m.find? (fun p => p.1 = k) with
  | some p => some p.2
  | none => none

/-- Python dict assignment `m[k] = v`: update in place, else append. -/
def dinsert {K V : Type} [DecidableEq K] (m : List (K × V)) (k : K) (v : V) :
    List (K × V) :=
  if m.any (fun p => p.1 = k) then
    m.map (fun p => if p.1 = k then (k, v) else p)
  else m ++ [(k, v)]

/-- Python `del m[k]` / `m.pop(k, None)` on the bindings. -/
def dremove {K V : Type} [DecidableEq K] (m : List (K × V)) (k : K) :
    List (K × V) :=
  m.filter (fun p => ¬ p.1 = k)

/-- Python `list(m.values())`. -/
def dvalues {K V : Type} (m : List (K × V)) : List V :=
  m.map Prod.snd

/-- Python `m.keys()`. -/
def dkeys {K V : Type} (m : List (K × V)) : List K :=
  m.map Prod.fst

/-- Python `str.lower()` (character-wise lowering). -/
def pyLower (s : String) : String :=
  ⟨s.data.map Char.toLower⟩

/-- Python `str.strip()`: drop whitespace from both ends. -/
def pyStrip (s : String) : String :=
  ⟨((s.data.dropWhile Char.isWhitespace).reverse.dropWhile
      Char.isWhitespace).reverse⟩

/-- Python `len` on a string (number of characters). -/
def pyLen (s : String) : Nat :=
  s.data.length

/-- Python truthiness of an optional byte string (`not key`). -/
def truthyBytes : Option Bytes → Bool
  | none => false
  | some b => !b.isEmpty

/-- Python truthiness of an optional string. -/
def truthyStr : Option String → Bool
  | none => false
  | some s => !(s = "")

/-- Python slice `l[:stop]` for an `Int` bound (negative counts from the end,
clamped at zero). -/
def pySliceTo {α : Type} (l : List α) (stop : Int) : List α :=
  if stop < 0 then l.take ((l.length : Int) + stop).toNat
  else l.take stop.toNat

/-- Recursion core of `chunksOf`, structurally recursive on a fuel argument
that bounds the number of pieces (the list length suffices, since every
step consumes at least one element). -/
def chunksOfGo (n : Nat) : Nat → Bytes → List Bytes
  | _, [] => []
  | 0, _ :: _ => []
  | fuel + 1, x :: xs =>
    (x :: xs).take n :: chunksOfGo n fuel ((x :: xs).drop n)

/-- Split a byte string into consecutive pieces of size `n`
(Python `[c[i:i+n] for i in range(0, len(c), n)]`; empty input gives `[]`,
and `n = 0` is never used by the code, which fixes `n = 65536`). -/
def chunksOf (n : Nat) (l : Bytes) : List Bytes :=
  match n with
  | 0 => []
  | n + 1 => chunksOfGo (n + 1) l.length l

theorem chunksOfGo_fuel (n : Nat) : ∀ (fuel fuel' : Nat) (l : Bytes),
    l.length ≤ fuel → l.length ≤ fuel' →
    chunksOfGo (n + 1) fuel l = chunksOfGo (n + 1) fuel' l := by
  intro fuel
  induction fuel with
  | zero =>
    intro fuel' l hf hf'
    have : l = [] := List.length_eq_zero.mp (Nat.le_zero.mp hf)
    subst this
    cases fuel' <;> rfl
  | succ fuel ih =>
    intro fuel' l hf hf'
    cases l with
    | nil => cases fuel' <;> rfl
    | cons x xs =>
      cases fuel' with
      | zero => simp at hf'
      | succ fuel' =>
        unfold chunksOfGo
        have hd : ((x :: xs).drop (n + 1)).length ≤ fuel := by
          simp only [List.length_drop, List.length_cons]
          simp only [List.length_cons] at hf
          omega
        have hd' : ((x :: xs).drop (n + 1)).length ≤ fuel' := by
          simp only [List.length_drop, List.length_cons]
          simp only [List.length_cons] at hf'
          omega
        rw [ih fuel' _ hd hd']

/-- Unfolding equation for `chunksOf` on a non-empty list. -/
theorem chunksOf_cons (n : Nat) (x : Nat) (xs : Bytes) :
    chunksOf (n + 1) (x :: xs)
      = (x :: xs).take (n + 1)
        :: chunksOf (n + 1) ((x :: xs).drop (n + 1)) := by
  show chunksOfGo (n + 1) (x :: xs).length (x :: xs) = _
  cases hL : (x :: xs).length with
  | zero => simp at hL
  | succ L =>
    unfold chunksOfGo
    cases hd : (x :: xs).drop (n + 1) with
    | nil =>
      simp only [chunksOf, hd, List.cons.injEq, true_and]
      cases L <;> rfl
    | cons y ys =>
      simp only [chunksOf, hd, List.cons.injEq, true_and]
      apply chunksOfGo_fuel
      · have := List.length_drop (n + 1) (x :: xs)
        rw [hd] at this
        simp only [List.length_cons] at this hL ⊢
        omega
      · exact Nat.le_refl _

/-! ## PKCS7 unpadding (server/services/encryption_service.py, server.py)

`pkcs7_unpad(padded)`: `pad_len = padded[-1]; return padded[:-pad_len]`.
On an empty input `padded[-1]` raises `IndexError`, modelled as `none`. -/

/-- `EncryptionService.pkcs7_unpad` / `ChatServer._pkcs7_unpad`. -/
def pkcs7_unpad (padded : Bytes) : Option Bytes :=
  match padded.getLast? with
  | none => none
  | some padLen => some (pySliceTo padded (-(padLen : Int)))

/-! ## UserService (server/services/user_service.py) and
validators (server/utils/validators.py) -/

/-- Result of `validate_username`: `(is_valid, result)` where `result` is the
trimmed name on success and the error message on failure. -/
inductive VuRes : Type
  | ok (trimmed : String)
  | err (msg : String)
deriving DecidableEq, Repr

/-- `validate_username(username)`. -/
def validate_username (username : String) : VuRes :=
  if username = "" then .err "A valid username is required."
  else
    let u := pyStrip username
    if u = "" then .err "Username cannot be empty."
    else if pyLen u > 50 then .err "Username too long (max 50 characters)."
    else .ok u

/-- The user registry: `clients : sid -> username`, `session_keys : sid -> key`. -/
structure UserSvc where
  clients : List (String × String)
  session_keys : List (String × Bytes)
deriving DecidableEq, Repr

/-- Result of `UserService.register_user`: `(success, message, users_list)`. -/
structure RegRes where
  success : Bool
  message : String
  users_list : Option (List String)
deriving DecidableEq, Repr

/-- `UserService.register_user(sid, username)` returning the result and the
updated service state. -/
def register_user (svc : UserSvc) (sid username : String) :
    RegRes × UserSvc :=
  match validate_username username with
  | .err m => (⟨false, m, none⟩, svc)
  | .ok u =>
    if (dvalues svc.clients).any (fun name => pyLower name = pyLower u) then
      (⟨false, "Username '" ++ u ++ "' is already taken.", none⟩, svc)
    else
      let clients' := dinsert svc.clients sid u
      (⟨true, "", some (dvalues clients')⟩, { svc with clients := clients' })

/-- `UserService.unregister_user(sid)`: pop the name and the session key;
returns `(username?, users_list?)` and the updated state. -/
def unregister_user (svc : UserSvc) (sid : String) :
    (Option String × Option (List String)) × UserSvc :=
  let username := dlookup svc.clients sid
  let clients' := dremove svc.clients sid
  let keys' := dremove svc.session_keys sid
  let users := if truthyStr username then some (dvalues clients') else none
  ((username, users), ⟨clients', keys'⟩)

/-- `UserService.get_username(sid)` (default `"Unknown"`). -/
def get_username (svc : UserSvc) (sid : String) : String :=
  (dlookup svc.clients sid).getD "Unknown"

/-- `UserService.find_user_sid(username)`: first sid bound to the name. -/
def find_user_sid (svc : UserSvc) (username : String) : Option String :=
  match svc.clients.find? (fun p => p.2 = username) with
  | some p => some p.1
  | none => none

/-- `UserService.get_session_key(sid)`. -/
def get_session_key (svc : UserSvc) (sid : String) : Option Bytes :=
  dlookup svc.session_keys sid

/-! ## Registration and disconnect event handlers
(server/handlers/connection_handler.py, mirrored in server/server.py) -/

/-- Events the server emits back through the transport channel. -/
inductive SrvOut : Type
  | errorTo (sid : String) (message : String)
  | updateUserList (users : List String)
  | fileChunk (target : Option String) (transferId : String)
      (chunkIndex : Nat) (chunkData : Bytes) (isLast : Bool)
      (metaFilename : Option String) (metaTotalChunks : Option Nat)
deriving DecidableEq, Repr

/-- `ConnectionHandler.on_register(sid, data)`: validate and register, then
either an error to the requester or a broadcast roster. (The trailing
history replay is out of scope of the registry.) -/
def on_register (svc : UserSvc) (sid username : String) :
    List SrvOut × UserSvc :=
  let (res, svc') := register_user svc sid username
  if res.success then
    ([.updateUserList (res.users_list.getD [])], svc')
  else
    ([.errorTo sid res.message], svc')

/-- `ConnectionHandler.on_disconnect(sid)`: unregisters the user; when a name
existed it broadcasts the updated roster and then falls into a block
(under the comment "Send system message") that reads the undefined local
variable `file_path`, raising `NameError` before anything further is
emitted. The raised exception is modelled as the `Except.error` branch. -/
def on_disconnect (svc : UserSvc) (sid : String) :
    (List SrvOut × Except String Unit) × UserSvc :=
  let ((username, users), svc') := unregister_user svc sid
  if truthyStr username then
    (([.updateUserList (users.getD [])],
      .error "NameError: name 'file_path' is not defined"), svc')
  else (([], .ok ()), svc')

/-! ## MessageService (server/services/message_service.py) -/

/-- Stored metadata of a private message. -/
structure PMsg where
  sender_sid : String
  recipient_sid : String
  status : String
deriving DecidableEq, Repr

/-- One step of `mark_messages_as_read`'s loop body for a single id. -/
def markOne (reader_sid : String) (st : List (Int × PMsg)) (message_id : Int) :
    List (Int × PMsg) × List (String × Int) :=
  match dlookup st message_id with
  | none => (st, [])
  | some meta =>
    if ¬ meta.recipient_sid = reader_sid then (st, [])
    else if meta.status = "seen" then (st, [])
    else
      (dinsert st message_id { meta with status := "seen" },
       [(meta.sender_sid, message_id)])

/-- `MessageService.mark_messages_as_read(reader_sid, message_ids)`:
per-id processing, returning the updated store and the list of
`(sender_sid, message_id)` acknowledgements to notify. -/
def mark_messages_as_read (reader_sid : String) (st : List (Int × PMsg))
    (message_ids : List Int) : List (Int × PMsg) × List (String × Int) :=
  match message_ids with
  | [] => (st, [])
  | m :: ms =>
    let (st₁, a₁) := markOne reader_sid st m
    let (st₂, a₂) := mark_messages_as_read reader_sid st₁ ms
    (st₂, a₁ ++ a₂)

/-! ## FileTransferService (server/services/file_transfer_service.py)

The AES-CBC cipher lives in the injected `encryption_service` collaborator;
it is modelled as a `decrypt` parameter returning `none` when the library
call raises. -/

/-- Transfer metadata sent with chunk 0 (fields are optional dict entries). -/
structure SMeta where
  filename : Option String
  total_size : Option Nat
  total_chunks : Option Nat
  chunk_size : Option Nat
  iv : Option Bytes
deriving DecidableEq, Repr

/-- One entry of `active_transfers`. -/
structure STransfer where
  sender_sid : String
  sender_username : String
  recipient : Option String
  is_private : Bool
  total_chunks : Nat
  received_chunks : Nat
  metadata : Option SMeta
  iv : Option Bytes
  encrypted_chunks : List (Nat × Bytes)
deriving DecidableEq, Repr

/-- The fresh transfer entry created on the first chunk seen. -/
def initTransfer (sid sender_username : String) (recipient : Option String)
    (is_private : Bool) : STransfer :=
  ⟨sid, sender_username, recipient, is_private, 0, 0, none, none, []⟩

/-- An incoming `public_file_chunk` / `private_file_chunk` payload
(`chunk_data` already base64-decoded). -/
structure ChunkIn where
  transfer_id : String
  chunk_index : Option Nat
  chunk_data : Bytes
  is_last_chunk : Bool
  metadata : Option SMeta
  recipient : Option String
deriving DecidableEq, Repr

/-- The transfer map `active_transfers`. -/
abbrev FTState := List (String × STransfer)

/-- Python `os.path.basename` for names with `/` separators: the characters
after the last `/` (empty when the name ends in `/`). -/
def pyBasename (s : String) : String :=
  ⟨s.data.foldl (fun acc c => if c = '/' then [] else acc ++ [c]) []⟩

/-- The ciphertext reassembled from a transfer's chunk dict:
`b"".join(chunks_dict[i] for i in sorted(chunks_dict.keys()))`. -/
def reassembleChunks (chunks_dict : List (Nat × Bytes)) : Bytes :=
  (((dkeys chunks_dict).insertionSort (· ≤ ·)).map
    (fun i => (dlookup chunks_dict i).getD [])).flatten

/-- `FileTransferService._decrypt_and_save`: validate key and IV, reassemble
the ciphertext in index order, decrypt, and return the output path with the
plaintext written there. Exceptions become `Except.error`. -/
def decrypt_and_save (decrypt : Bytes → Bytes → Bytes → Option Bytes)
    (transfer_id : String) (t : STransfer) (session_key : Option Bytes) :
    Except String (String × Bytes) :=
  if ¬ truthyBytes session_key then
    .error "Session key required for decryption"
  else
    match t.metadata with
    | none => .error "AttributeError: 'NoneType' object has no attribute 'get'"
    | some m =>
      let filename := m.filename.getD "unknown"
      if ¬ truthyBytes t.iv then .error "IV not found in transfer metadata"
      else
        let iv := t.iv.getD []
        let ciphertext := reassembleChunks t.encrypted_chunks
        match decrypt ciphertext (session_key.getD []) iv with
        | none => .error "decrypt failed"
        | some plaintext =>
          let bn := pyBasename filename
          let safe_name := if bn = "" then "file" else bn
          .ok (transfer_id ++ "_" ++ safe_name, plaintext)

/-- Result tuple of `handle_chunk`:
`(success, error_message, is_complete, decrypted_path)`, the path carrying
the plaintext written to it. -/
structure HCRes where
  success : Bool
  error : String
  is_complete : Bool
  saved : Option (String × Bytes)
deriving DecidableEq, Repr

/-- The in-place mutation of the transfer entry performed by `handle_chunk`
on one chunk: create the entry lazily, record metadata on chunk 0,
increment the arrival counter, and store the chunk bytes by index
(overwriting duplicates). -/
def hc_updated_transfer (st : FTState) (sid sender_username : String)
    (d : ChunkIn) (is_private : Bool) : STransfer :=
  let recipient := if is_private then d.recipient else none
  let i := d.chunk_index.getD 0
  let t₀ := (dlookup st d.transfer_id).getD
    (initTransfer sid sender_username recipient is_private)
  let t₁ :=
    match d.metadata with
    | some m =>
      if i = 0 then
        { t₀ with metadata := some m, total_chunks := m.total_chunks.getD 0,
                  iv := m.iv }
      else t₀
    | none => t₀
  { t₁ with
    received_chunks := t₁.received_chunks + 1,
    encrypted_chunks := dinsert t₁.encrypted_chunks i d.chunk_data }

/-- `FileTransferService.handle_chunk(sid, sender_username, data, session_key,
is_private)`. The arrival counter `received_chunks` is incremented once per
chunk event; the chunk bytes are stored by index (overwriting duplicates);
completion is `received_chunks >= total_chunks > 0`, after which the file
is decrypted and saved (the entry being removed when that raises). -/
def handle_chunk (decrypt : Bytes → Bytes → Bytes → Option Bytes)
    (st : FTState) (sid sender_username : String) (d : ChunkIn)
    (session_key : Option Bytes) (is_private : Bool) : HCRes × FTState :=
  if ¬ (¬ d.transfer_id = "" ∧ d.chunk_index.isSome ∧ ¬ d.chunk_data.isEmpty) then
    (⟨false, "Invalid file chunk", false, none⟩, st)
  else
    let t₂ := hc_updated_transfer st sid sender_username d is_private
    let st₁ := dinsert st d.transfer_id t₂
    if t₂.total_chunks ≤ t₂.received_chunks ∧ 0 < t₂.total_chunks then
      match decrypt_and_save decrypt d.transfer_id t₂ session_key with
      | .ok saved => (⟨true, "", true, some saved⟩, st₁)
      | .error e => (⟨false, e, false, none⟩, dremove st₁ d.transfer_id)
    else
      (⟨true, "", false, none⟩, st₁)

/-! ## FileHandler (server/handlers/file_handler.py) -/

/-- Metadata attached to the first relayed plaintext chunk
(the wall-clock timestamp is omitted). -/
structure RMeta where
  filename : String
  total_size : Nat
  total_chunks : Nat
  chunk_size : Nat
  username : String
  is_private : Bool
  recipient : String
deriving DecidableEq, Repr

/-- A relayed `file_chunk` emission (`target = none` is a broadcast). -/
structure RelayOut where
  target : Option String
  transfer_id : String
  chunk_index : Nat
  chunk_data : Bytes
  is_last_chunk : Bool
  metadata : Option RMeta
deriving DecidableEq, Repr

/-- Events emitted by the file-chunk pipeline. -/
inductive FHOut : Type
  | errorTo (sid : String) (message : String)
  | fileChunk (r : RelayOut)
deriving DecidableEq, Repr

/-- Emission part of `FileHandler._broadcast_file` for a found transfer
entry `t`: re-chunk the decrypted plaintext and stream it to the private
recipient or broadcast it; resolution or metadata failures emit one error
to the sender. -/
def bc_events (svc : UserSvc) (t : STransfer) (transfer_id : String)
    (plaintext : Bytes) (sender_username : String) : List FHOut :=
  match t.metadata with
  | none =>
    [.errorTo t.sender_sid
        "Server error: 'NoneType' object has no attribute 'get'"]
  | some m =>
    let chunk_size := m.chunk_size.getD 65536
    let filename := m.filename.getD "file"
    let file_size := plaintext.length
    let total_chunks := max 1 ((file_size + chunk_size - 1) / chunk_size)
    let targetRes : Except FHOut (Option String) :=
      if t.is_private ∧ truthyStr t.recipient then
        match find_user_sid svc (t.recipient.getD "") with
        | some ts => .ok (some ts)
        | none => .error (.errorTo t.sender_sid
            ("Recipient '" ++ t.recipient.getD "" ++ "' not found"))
      else .ok none
    match targetRes with
    | .error e => [e]
    | .ok target =>
      let pieces := chunksOf chunk_size plaintext
      (pieces.enum).map (fun p =>
        FHOut.fileChunk
          { target := target
            transfer_id := transfer_id
            chunk_index := p.1
            chunk_data := p.2
            is_last_chunk := p.1 = total_chunks - 1
            metadata :=
              if p.1 = 0 then
                some { filename := pyBasename filename
                       total_size := file_size
                       total_chunks := total_chunks
                       chunk_size := chunk_size
                       username := sender_username
                       is_private := t.is_private
                       recipient :=
                         if t.is_private then t.recipient.getD "" else "" }
              else none })

/-- `FileHandler._broadcast_file(transfer_id, file_path, sender_username)`:
look up the transfer (a missing entry only logs and returns), emit the
relayed chunks or the error, and purge the transfer — on the
recipient-not-found path via `_cleanup_file_and_transfer`, on every other
path via the `finally` block. -/
def broadcast_file (svc : UserSvc) (ft : FTState) (transfer_id : String)
    (plaintext : Bytes) (sender_username : String) : List FHOut × FTState :=
  match dlookup ft transfer_id with
  | none => ([], ft)
  | some t =>
    (bc_events svc t transfer_id plaintext sender_username,
     dremove ft transfer_id)

/-- `FileHandler._handle_file_chunk(sid, data, is_private)`: look up the
session key (error if unset), delegate to the service, and on completion
broadcast and purge. -/
def fh_handle_file_chunk (decrypt : Bytes → Bytes → Bytes → Option Bytes)
    (svc : UserSvc) (ft : FTState) (sid : String) (d : ChunkIn)
    (is_private : Bool) : List FHOut × FTState :=
  let sender_username := get_username svc sid
  let session_key := get_session_key svc sid
  if ¬ truthyBytes session_key then
    ([.errorTo sid "Session key not established"], ft)
  else
    let hc :=
      handle_chunk decrypt ft sid sender_username d session_key is_private
    if ¬ hc.1.success then ([.errorTo sid hc.1.error], hc.2)
    else if ¬ hc.1.is_complete then ([], hc.2)
    else
      broadcast_file svc hc.2 d.transfer_id (hc.1.saved.getD ("", [])).2
        sender_username

/-! ## Client session gating (client/core/session_manager.py,
client/handlers/message_handler.py, client/handlers/file_handler.py)

`SessionManager.session_key` returns `_session_aes_key`, which is assigned by
`generate_and_exchange` in the `connect` handler, before `session_key_ok`
arrives; `on_session_ack` only flips `_session_ready`. AES-CBC encryption
with its random IV is the injected collaborator `aesEnc`. -/

/-- Client session state (`_session_aes_key`, `_session_ready`). -/
structure CSession where
  session_aes_key : Option Bytes
  session_ready : Bool
deriving DecidableEq, Repr

/-- `SessionManager.on_session_ack()`. -/
def on_session_ack (s : CSession) : CSession :=
  { s with session_ready := true }

/-- Python `str.encode("utf-8")`. -/
def pyEncodeUtf8 (s : String) : Bytes :=
  s.toUTF8.toList.map (fun b => b.toNat)

/-- The `file` descriptor attached to a message (client/core/client.py). -/
structure FileRef where
  transfer_id : String
  filename : String
  size : Nat
deriving DecidableEq, Repr

/-- Payload of an outbound encrypted public message. -/
structure PubMsgOut where
  enc : Bool
  ciphertext : Bytes
  iv : Bytes
  file : Option FileRef
deriving DecidableEq, Repr

/-- Payload of an outbound encrypted private message. -/
structure PrivMsgOut where
  recipient : String
  enc : Bool
  ciphertext : Bytes
  iv : Bytes
  file : Option FileRef
deriving DecidableEq, Repr

/-- `MessageHandler.send_public_message(text, file_payload)`: raises (and
emits nothing) when the session key is unset, otherwise encrypts and emits
one `message` event. The ack flag is not consulted. -/
def send_public_message (aesEnc : Bytes → Bytes → Bytes × Bytes)
    (sess : CSession) (text : String) (file_payload : Option FileRef) :
    Except String PubMsgOut :=
  if ¬ truthyBytes sess.session_aes_key then
    .error "Session key not established"
  else
    let key := sess.session_aes_key.getD []
    let (ciphertext, iv) := aesEnc (pyEncodeUtf8 text) key
    .ok ⟨true, ciphertext, iv, file_payload⟩

/-- `MessageHandler.send_private_message(recipient, text, file_payload)`. -/
def send_private_message (aesEnc : Bytes → Bytes → Bytes × Bytes)
    (sess : CSession) (recipient text : String)
    (file_payload : Option FileRef) : Except String PrivMsgOut :=
  if ¬ truthyBytes sess.session_aes_key then
    .error "Session key not established"
  else
    let key := sess.session_aes_key.getD []
    let (ciphertext, iv) := aesEnc (pyEncodeUtf8 text) key
    .ok ⟨recipient, true, ciphertext, iv, file_payload⟩

/-- Metadata bundled with the first outbound file chunk. -/
structure CMeta where
  filename : String
  total_size : Nat
  total_chunks : Nat
  chunk_size : Nat
  iv : Bytes
deriving DecidableEq, Repr

/-- An outbound `public_file_chunk` / `private_file_chunk` emission. -/
structure CChunkOut where
  event : String
  transfer_id : String
  chunk_index : Nat
  chunk_data : Bytes
  is_last_chunk : Bool
  metadata : Option CMeta
  recipient : Option String
deriving DecidableEq, Repr

/-- `FileHandler.send_file_chunks(file_data, filename, recipient)`: encrypt the
whole file once, split the ciphertext into 64 KiB chunks and emit them all,
returning the transfer id (the fresh uuid is the parameter `tid`); on any
local failure return `none` with an error notification and emit nothing. -/
def send_file_chunks (aesEnc : Bytes → Bytes → Bytes × Bytes) (tid : String)
    (sess : CSession) (file_data : Bytes) (filename : String)
    (recipient : Option String) :
    Option String × List CChunkOut × List String :=
  if filename = "" then (none, [], ["Invalid filename."])
  else if ¬ truthyBytes sess.session_aes_key then
    (none, [], ["Session key not established; cannot send file securely."])
  else
    let key := sess.session_aes_key.getD []
    let (ciphertext, iv) := aesEnc file_data key
    let chunk_size := 65536
    let chunks := chunksOf chunk_size ciphertext
    let total_chunks := chunks.length
    match chunks with
    | [] => (none, [], ["File transfer failed. Please try again."])
    | _ :: _ =>
      let evName := if truthyStr recipient then "private_file_chunk"
                    else "public_file_chunk"
      let evs := (chunks.enum).map (fun p =>
        ({ event := evName
           transfer_id := tid
           chunk_index := p.1
           chunk_data := p.2
           is_last_chunk :=
             if p.1 = 0 then total_chunks = 1 else p.1 = total_chunks - 1
           metadata :=
             if p.1 = 0 then
               some { filename := filename
                      total_size := file_data.length
                      total_chunks := total_chunks
                      chunk_size := chunk_size
                      iv := iv }
             else none
           recipient := if truthyStr recipient then recipient else none }
          : CChunkOut))
      (some tid, evs, [])

/-! ## Transport-gated pending queue (client/core/client.py) -/

/-- Client transport state: connectivity, the pending FIFO, and the log of
calls handed to the socket's emit. -/
structure ClientConn where
  connected : Bool
  pending : List (String × String)
  log : List (String × String)
deriving DecidableEq, Repr

/-- `ChatClient._emit_when_connected(event, data)`: emit now when connected,
else append to the pending queue. -/
def emit_when_connected (st : ClientConn) (event payload : String) :
    ClientConn :=
  if st.connected then { st with log := st.log ++ [(event, payload)] }
  else { st with pending := st.pending ++ [(event, payload)] }

/-- `ChatClient._flush_pending_events()`: optionally prepend a synthesized
`register` for the desired identity, emit everything in order, clear. -/
def flush_pending_events (desired_username : String) (st : ClientConn) :
    ClientConn :=
  let pending :=
    if ¬ desired_username = "" then
      if st.pending.any (fun e => e.1 = "register") then st.pending
      else ("register", desired_username) :: st.pending
    else st.pending
  { st with log := st.log ++ pending, pending := [] }

/-! ## Reconnection loop (client/core/connection_manager.py) -/

/-- `_max_reconnect_attempts`. -/
def max_reconnect_attempts : Nat := 10

/-- `_reconnect_delay` (seconds). -/
def reconnect_delay_base : Nat := 1

/-- `_max_reconnect_delay` (seconds). -/
def max_reconnect_delay : Nat := 30

/-- Trace of one run of the reconnection loop: the attempt numbers tried, the
backoff waits slept after each failure, and whether a connect succeeded. -/
structure ReconTrace where
  attempts : List Nat
  waits : List Nat
  succeeded : Bool
deriving DecidableEq, Repr

/-- `ConnectionManager._reconnection_loop` driven by the connectivity oracle
`connectOk` (outcome of the k-th attempt), starting from
`_reconnect_attempts = a`: increment, give up beyond the bound, else try;
on failure sleep `min(delay * 2**(attempts-1), cap)` and loop. -/
def reconnection_loop (connectOk : Nat → Bool) (a : Nat) : ReconTrace :=
  let a' := a + 1
  if h : max_reconnect_attempts < a' then ⟨[], [], false⟩
  else if connectOk a' then ⟨[a'], [], true⟩
  else
    let w := min (reconnect_delay_base * 2 ^ (a' - 1)) max_reconnect_delay
    let t := reconnection_loop connectOk a'
    ⟨a' :: t.attempts, w :: t.waits, t.succeeded⟩
termination_by max_reconnect_attempts + 1 - a
decreasing_by
  simp only [max_reconnect_attempts] at *
  omega

/-! ## Client-side chunk storage and reassembly
(client/handlers/file_handler.py) -/

/-- The per-transfer chunk dict built from arriving chunks:
`self._received_chunks[tid][chunk_index] = data` for each arrival. -/
def buildChunkDict (arrivals : List (Nat × Bytes)) : List (Nat × Bytes) :=
  arrivals.foldl (fun m kv => dinsert m kv.1 kv.2) []

/-- `FileHandler._reassemble_file_background`'s core: sort the stored indexes
and concatenate (`b"".join(chunks_dict[i] for i in sorted_indices)`),
applied to the dict built from the arrival sequence. -/
def reassembleArrivals (arrivals : List (Nat × Bytes)) : Bytes :=
  reassembleChunks (buildChunkDict arrivals)

/-! ## Helper lemmas on the dict model -/

theorem dlookup_nil {K V : Type} [DecidableEq K] (k : K) :
    dlookup ([] : List (K × V)) k = none := rfl

theorem dlookup_cons {K V : Type} [DecidableEq K] (p : K × V)
    (m : List (K × V)) (k : K) :
    dlookup (p :: m) k = if p.1 = k then some p.2 else dlookup m k := by
  by_cases h : p.1 = k
  · simp [dlookup, List.find?_cons_of_pos, h]
  · simp only [dlookup, List.find?]
    simp [h]

theorem dlookup_eq_none_iff {K V : Type} [DecidableEq K]
    (m : List (K × V)) (k : K) :
    dlookup m k = none ↔ ∀ p ∈ m, ¬ p.1 = k := by
  induction m with
  | nil => simp [dlookup_nil]
  | cons q m ih =>
    rw [dlookup_cons]
    by_cases h : q.1 = k <;> simp [h, ih]

theorem dlookup_some_mem {K V : Type} [DecidableEq K]
    {m : List (K × V)} {k : K} {v : V} (h : dlookup m k = some v) :
    (k, v) ∈ m := by
  induction m with
  | nil => simp [dlookup_nil] at h
  | cons q m ih =>
    rw [dlookup_cons] at h
    by_cases hq : q.1 = k
    · rw [if_pos hq] at h
      injection h with h2
      have hqv : (k, v) = q := by rw [← hq, ← h2]
      rw [hqv]
      exact List.mem_cons_self q m
    · rw [if_neg hq] at h
      exact List.mem_cons_of_mem _ (ih h)

theorem any_key_eq_false {K V : Type} [DecidableEq K]
    {m : List (K × V)} {k : K} (h : dlookup m k = none) :
    m.any (fun p => p.1 = k) = false := by
  rw [dlookup_eq_none_iff] at h
  simp only [List.any_eq_false, decide_eq_true_eq]
  exact h

theorem dlookup_dinsert_self {K V : Type} [DecidableEq K]
    (m : List (K × V)) (k : K) (v : V) :
    dlookup (dinsert m k v) k = some v := by
  unfold dinsert
  by_cases h : m.any (fun p => p.1 = k) = true
  · rw [if_pos h]
    induction m with
    | nil => simp at h
    | cons q m ih =>
      by_cases hq : q.1 = k
      · simp [hq, dlookup_cons]
      · simp only [List.any_cons, decide_eq_true_eq, hq, false_or] at h
        simpa [hq, dlookup_cons] using ih h
  · rw [if_neg h]
    rw [Bool.not_eq_true, List.any_eq_false] at h
    induction m with
    | nil => simp [dlookup_cons]
    | cons q m ih =>
      have hq : ¬ q.1 = k := by
        have := h q (List.mem_cons_self q m)
        simpa using this
      rw [List.cons_append, dlookup_cons, if_neg hq]
      exact ih (fun p hp => h p (List.mem_cons_of_mem _ hp))

theorem dlookup_dinsert_ne {K V : Type} [DecidableEq K]
    (m : List (K × V)) (k : K) (v : V) {k' : K} (hne : ¬ k' = k) :
    dlookup (dinsert m k v) k' = dlookup m k' := by
  have hk : ¬ k = k' := fun hc => hne hc.symm
  unfold dinsert
  by_cases h : m.any (fun p => p.1 = k) = true
  · rw [if_pos h]
    clear h
    induction m with
    | nil => rfl
    | cons q m ih =>
      by_cases hq : q.1 = k
      · simp [List.map_cons, dlookup_cons, hq, hk, ih]
      · simp only [List.map_cons, dlookup_cons, if_neg hq]
        split <;> simp [ih]
  · rw [if_neg h]
    clear h
    induction m with
    | nil => simp [dlookup_cons, dlookup_nil, hk]
    | cons q m ih =>
      rw [List.cons_append, dlookup_cons, dlookup_cons]
      by_cases hq : q.1 = k'
      · simp [hq]
      · simp only [if_neg hq]
        exact ih

theorem dremove_cons {K V : Type} [DecidableEq K] (q : K × V)
    (m : List (K × V)) (k : K) :
    dremove (q :: m) k = if q.1 = k then dremove m k
                         else q :: dremove m k := by
  unfold dremove
  by_cases hq : q.1 = k <;> simp [List.filter_cons, hq]

theorem dlookup_dremove_self {K V : Type} [DecidableEq K]
    (m : List (K × V)) (k : K) :
    dlookup (dremove m k) k = none := by
  induction m with
  | nil => rfl
  | cons q m ih =>
    rw [dremove_cons]
    by_cases hq : q.1 = k
    · simp [hq, ih]
    · simp [hq, dlookup_cons, ih]

theorem dlookup_dremove_ne {K V : Type} [DecidableEq K]
    (m : List (K × V)) (k : K) {k' : K} (hne : ¬ k' = k) :
    dlookup (dremove m k) k' = dlookup m k' := by
  induction m with
  | nil => rfl
  | cons q m ih =>
    rw [dremove_cons]
    by_cases hq : q.1 = k
    · have hk : ¬ k = k' := fun hc => hne hc.symm
      simp [hq, dlookup_cons, hk, ih]
    · simp [hq, dlookup_cons, ih]

/-! ## C10: PKCS7 unpadding performs no validation -/

/-- C10: the server's PKCS7 unpadding performs no padding validation: every
non-empty input yields a value (never a rejection) while the empty input
raises; when the final byte `b` satisfies `0 < b ≤ len` the result is the
input shortened by `b` bytes — regardless of the content of the removed
bytes — and a final byte of `0`, or one exceeding the input length, yields
the empty byte string. -/
theorem pkcs7_unpad_eq {l : Bytes} {b : Nat} (hb : l.getLast? = some b) :
    pkcs7_unpad l = some (pySliceTo l (-(b : Int))) := by
  unfold pkcs7_unpad
  rw [hb]

theorem C10_pkcs7_no_validation :
    (∀ l : Bytes, (pkcs7_unpad l).isSome = true ↔ ¬ l = [])
    ∧ (∀ (l : Bytes) (b : Nat), l.getLast? = some b → 0 < b → b ≤ l.length →
        pkcs7_unpad l = some (l.take (l.length - b)))
    ∧ (∀ (l : Bytes) (b : Nat), l.getLast? = some b →
        (b = 0 ∨ l.length < b) → pkcs7_unpad l = some []) := by
  refine ⟨fun l => ?_, fun l b hb h0 hle => ?_, fun l b hb h0 => ?_⟩
  · unfold pkcs7_unpad
    cases h : l.getLast? with
    | none => simp [List.getLast?_eq_none_iff.mp h]
    | some b =>
      simp only [Option.isSome_some, true_iff]
      intro hl
      rw [hl] at h
      cases h
  · rw [pkcs7_unpad_eq hb]
    unfold pySliceTo
    have hneg : -(b : Int) < 0 := by omega
    rw [if_pos hneg]
    have harith : ((l.length : Int) + -(b : Int)).toNat = l.length - b := by
      omega
    rw [harith]
  · rw [pkcs7_unpad_eq hb]
    unfold pySliceTo
    rcases h0 with h0 | h0
    · subst h0
      norm_num
    · have hneg : -(b : Int) < 0 := by omega
      rw [if_pos hneg]
      have harith : ((l.length : Int) + -(b : Int)).toNat = 0 := by omega
      rw [harith, List.take_zero]

/-- Witness for C10 at concrete inputs: removing two declared pad bytes from
`[65, 66, 2]`, a zero final byte, and an oversized final byte. -/
theorem C10_witness :
    pkcs7_unpad [65, 66, 2] = some [65]
    ∧ pkcs7_unpad [65, 66, 0] = some []
    ∧ pkcs7_unpad [65, 66, 4] = some [] := by
  refine ⟨?_, ?_, ?_⟩
  · simpa using C10_pkcs7_no_validation.2.1 [65, 66, 2] 2 rfl (by decide)
      (by decide)
  · exact C10_pkcs7_no_validation.2.2 [65, 66, 0] 0 rfl (Or.inl rfl)
  · exact C10_pkcs7_no_validation.2.2 [65, 66, 4] 4 rfl (Or.inr (by decide))

/-! ## C8: reconnection backoff -/

theorem recon_waits_spec (ok : Nat → Bool) : ∀ a : Nat,
    (reconnection_loop ok a).waits
      = ((reconnection_loop ok a).attempts.filter (fun k => !ok k)).map
          (fun k =>
            min (reconnect_delay_base * 2 ^ (k - 1)) max_reconnect_delay) := by
  have H : ∀ n a, max_reconnect_attempts + 1 - a ≤ n →
      (reconnection_loop ok a).waits
        = ((reconnection_loop ok a).attempts.filter (fun k => !ok k)).map
            (fun k =>
              min (reconnect_delay_base * 2 ^ (k - 1)) max_reconnect_delay) := by
    intro n
    induction n with
    | zero =>
      intro a ha
      rw [reconnection_loop]
      have : max_reconnect_attempts < a + 1 := by omega
      simp [this]
    | succ n ih =>
      intro a ha
      rw [reconnection_loop]
      by_cases h1 : max_reconnect_attempts < a + 1
      · simp [h1]
      · rw [dif_neg h1]
        by_cases h2 : ok (a + 1) = true
        · simp [h2]
        · have hrec := ih (a + 1) (by omega)
          simp only [h2, Bool.false_eq_true, if_false, List.filter_cons]
          simp [h2, hrec]
  exact fun a => H (max_reconnect_attempts + 1) a (by omega)

theorem recon_attempts_le (ok : Nat → Bool) : ∀ a : Nat,
    (reconnection_loop ok a).attempts.length
      ≤ max_reconnect_attempts - a := by
  have H : ∀ n a, max_reconnect_attempts + 1 - a ≤ n →
      (reconnection_loop ok a).attempts.length
        ≤ max_reconnect_attempts - a := by
    intro n
    induction n with
    | zero =>
      intro a ha
      rw [reconnection_loop]
      have : max_reconnect_attempts < a + 1 := by omega
      simp [this]
    | succ n ih =>
      intro a ha
      rw [reconnection_loop]
      by_cases h1 : max_reconnect_attempts < a + 1
      · simp [h1]
      · rw [dif_neg h1]
        by_cases h2 : ok (a + 1) = true
        · simp only [h2, if_true, List.length_singleton]
          omega
        · have hrec := ih (a + 1) (by omega)
          simp only [h2, Bool.false_eq_true, if_false, List.length_cons]
          omega
  exact fun a => H (max_reconnect_attempts + 1) a (by omega)

theorem recon_attempts_consecutive (ok : Nat → Bool) : ∀ a : Nat,
    (reconnection_loop ok a).attempts
      = List.range' (a + 1) (reconnection_loop ok a).attempts.length := by
  have H : ∀ n a, max_reconnect_attempts + 1 - a ≤ n →
      (reconnection_loop ok a).attempts
        = List.range' (a + 1) (reconnection_loop ok a).attempts.length := by
    intro n
    induction n with
    | zero =>
      intro a ha
      rw [reconnection_loop]
      have : max_reconnect_attempts < a + 1 := by omega
      simp [this]
    | succ n ih =>
      intro a ha
      rw [reconnection_loop]
      by_cases h1 : max_reconnect_attempts < a + 1
      · simp [h1]
      · rw [dif_neg h1]
        by_cases h2 : ok (a + 1) = true
        · simp [h2]
        · have hrec := ih (a + 1) (by omega)
          simp only [h2, Bool.false_eq_true, if_false, List.length_cons,
            List.range'_succ, List.cons.injEq, true_and]
          exact hrec
  exact fun a => H (max_reconnect_attempts + 1) a (by omega)

/-- C8: in the reconnection loop the waits slept are exactly
`min(base * 2^(k-1), cap)` for each consecutive failed attempt `k`
(base 1 s, cap 30 s), the attempt numbers are consecutive from 1, at most
10 attempts are made, and in particular three consecutive failures yield
waits 1 s, 2 s, 4 s before a successful fourth attempt, while an
always-failing oracle gives exactly 10 attempts and then gives up. -/
theorem C8_reconnect_backoff :
    (∀ (ok : Nat → Bool) (a : Nat),
        (reconnection_loop ok a).waits
          = ((reconnection_loop ok a).attempts.filter (fun k => !ok k)).map
              (fun k =>
                min (reconnect_delay_base * 2 ^ (k - 1)) max_reconnect_delay))
    ∧ (∀ ok : Nat → Bool,
        (reconnection_loop ok 0).attempts
          = List.range' 1 (reconnection_loop ok 0).attempts.length
        ∧ (reconnection_loop ok 0).attempts.length ≤ 10)
    ∧ reconnection_loop (fun k => decide (4 ≤ k)) 0
        = ⟨[1, 2, 3, 4], [1, 2, 4], true⟩
    ∧ reconnection_loop (fun _ => false) 0
        = ⟨[1, 2, 3, 4, 5, 6, 7, 8, 9, 10],
           [1, 2, 4, 8, 16, 30, 30, 30, 30, 30], false⟩ := by
  refine ⟨recon_waits_spec, fun ok => ⟨recon_attempts_consecutive ok 0, ?_⟩,
    ?_, ?_⟩
  · simpa using recon_attempts_le ok 0
  · simp [reconnection_loop, max_reconnect_attempts, reconnect_delay_base,
      max_reconnect_delay]
  · simp [reconnection_loop, max_reconnect_attempts, reconnect_delay_base,
      max_reconnect_delay]

/-- Witness for C8 at the always-failing oracle: the waits are the capped
exponential delays of the failed attempts. -/
theorem C8_witness :
    (reconnection_loop (fun _ => false) 0).waits
      = ((reconnection_loop (fun _ => false) 0).attempts.filter
          (fun k => !(fun _ => false) k)).map
          (fun k =>
            min (reconnect_delay_base * 2 ^ (k - 1)) max_reconnect_delay) :=
  C8_reconnect_backoff.1 (fun _ => false) 0

/-! ## C9: transport-gated FIFO queue -/

theorem emit_when_connected_offline (st : ClientConn)
    (h : st.connected = false) (e d : String) :
    emit_when_connected st e d
      = { st with pending := st.pending ++ [(e, d)] } := by
  simp [emit_when_connected, h]

theorem offline_foldl_queue (calls : List (String × String)) :
    ∀ st : ClientConn, st.connected = false →
      (calls.foldl (fun s ed => emit_when_connected s ed.1 ed.2) st).pending
          = st.pending ++ calls
      ∧ (calls.foldl (fun s ed => emit_when_connected s ed.1 ed.2) st).log
          = st.log
      ∧ (calls.foldl (fun s ed => emit_when_connected s ed.1 ed.2)
          st).connected = false := by
  induction calls with
  | nil => intro st h; simp [h]
  | cons c cs ih =>
    intro st h
    rw [List.foldl_cons, emit_when_connected_offline st h]
    have := ih { st with pending := st.pending ++ [(c.1, c.2)] } (by simp [h])
    simpa using this

/-- C9: every outbound call made while not connected is appended to the
pending queue in FIFO order with nothing emitted, and flushing on
(re)connection emits the queue in original insertion order, prepending one
synthesized `register` carrying the desired username exactly when a desired
identity is known and no `register` call is already queued; the queue is
left empty. -/
theorem C9_transport_queue (st : ClientConn) (calls : List (String × String))
    (desired : String) (h : st.connected = false) :
    (calls.foldl (fun s ed => emit_when_connected s ed.1 ed.2) st).pending
        = st.pending ++ calls
    ∧ (calls.foldl (fun s ed => emit_when_connected s ed.1 ed.2) st).log
        = st.log
    ∧ (flush_pending_events desired
        (calls.foldl (fun s ed => emit_when_connected s ed.1 ed.2)
          st)).pending = []
    ∧ (flush_pending_events desired
        (calls.foldl (fun s ed => emit_when_connected s ed.1 ed.2) st)).log
        = st.log
          ++ (if ¬ desired = "" ∧
                (st.pending ++ calls).any (fun e => e.1 = "register") = false
              then [("register", desired)] else [])
          ++ (st.pending ++ calls) := by
  obtain ⟨hp, hl, _⟩ := offline_foldl_queue calls st h
  refine ⟨hp, hl, by simp [flush_pending_events], ?_⟩
  unfold flush_pending_events
  by_cases hd : desired = ""
  · simp [hd, hp, hl]
  · by_cases hr :
      (st.pending ++ calls).any (fun e => e.1 = "register") = true
    · simp [hd, hp, hl, hr]
    · simp only [Bool.not_eq_true] at hr
      simp [hd, hp, hl, hr]

/-- Witness for C9: the scenario of a `register` call queued while offline,
flushed first on connect. -/
theorem C9_witness :
    (flush_pending_events "alice"
      ([("message", "m1")].foldl
        (fun s ed => emit_when_connected s ed.1 ed.2)
        ⟨false, [], []⟩)).log
      = [("register", "alice"), ("message", "m1")] := by
  have h := (C9_transport_queue ⟨false, [], []⟩ [("message", "m1")]
    "alice" rfl).2.2.2
  simpa using h

/-! ## C5: registration -/

/-- C5: `register` trims the raw name and rejects the registration when the
trimmed name is empty, longer than 50 characters, or equal
case-insensitively to a currently registered name, inserting no mapping and
sending only an error to the requester on rejection; on success it inserts
the mapping and broadcasts the full roster of display names. -/
theorem C5_register_presence (svc : UserSvc) (sid raw : String) :
    ((pyStrip raw = "" ∨ 50 < pyLen (pyStrip raw)
      ∨ (dvalues svc.clients).any
          (fun name => pyLower name = pyLower (pyStrip raw)) = true) →
      (on_register svc sid raw).2 = svc
      ∧ ∃ msg, (on_register svc sid raw).1 = [SrvOut.errorTo sid msg])
    ∧ (¬ pyStrip raw = "" → pyLen (pyStrip raw) ≤ 50 →
        (dvalues svc.clients).any
          (fun name => pyLower name = pyLower (pyStrip raw)) = false →
      (on_register svc sid raw).2.clients
          = dinsert svc.clients sid (pyStrip raw)
      ∧ (on_register svc sid raw).2.session_keys = svc.session_keys
      ∧ (on_register svc sid raw).1
          = [SrvOut.updateUserList
              (dvalues (dinsert svc.clients sid (pyStrip raw)))]) := by
  constructor
  · intro h
    unfold on_register register_user validate_username
    by_cases hraw : raw = ""
    · simp [hraw]
    · rw [if_neg hraw]
      by_cases hu : pyStrip raw = ""
      · simp [hu]
      · rw [if_neg hu]
        by_cases hlen : 50 < pyLen (pyStrip raw)
        · simp [hlen]
        · rw [if_neg (by omega : ¬ pyLen (pyStrip raw) > 50)]
          have hcol : (dvalues svc.clients).any
              (fun name => pyLower name = pyLower (pyStrip raw)) = true := by
            rcases h with h | h | h
            · exact absurd h hu
            · omega
            · exact h
          simp [hcol]
  · intro hu hlen hcol
    unfold on_register register_user validate_username
    have hraw : ¬ raw = "" := by
      intro hr
      apply hu
      rw [hr]
      rfl
    rw [if_neg hraw, if_neg hu,
      if_neg (by omega : ¬ pyLen (pyStrip raw) > 50)]
    simp [hcol]

/-- Witness for C5: a case-variant collision is rejected without touching the
registry, and a fresh name is inserted and broadcast. -/
theorem C5_witness :
    ((on_register ⟨[("a", "Bob")], []⟩ "b" " bob ").2
        = ⟨[("a", "Bob")], []⟩
      ∧ ∃ msg, (on_register ⟨[("a", "Bob")], []⟩ "b" " bob ").1
          = [SrvOut.errorTo "b" msg])
    ∧ (on_register ⟨[("a", "Bob")], []⟩ "b" "carol").1
        = [SrvOut.updateUserList ["Bob", "carol"]] := by
  constructor
  · exact (C5_register_presence ⟨[("a", "Bob")], []⟩ "b" " bob ").1
      (Or.inr (Or.inr (by decide)))
  · have h := (C5_register_presence ⟨[("a", "Bob")], []⟩ "b" "carol").2
      (by decide) (by decide) (by decide)
    rw [h.2.2]
    decide

/-! ## C6: per-id read receipts -/

theorem mark_batch (r : String) (ys : List Int) : ∀ (xs : List Int)
    (st : List (Int × PMsg)),
    mark_messages_as_read r st (xs ++ ys)
      = ((mark_messages_as_read r (mark_messages_as_read r st xs).1 ys).1,
         (mark_messages_as_read r st xs).2
           ++ (mark_messages_as_read r (mark_messages_as_read r st xs).1
                 ys).2) := by
  intro xs
  induction xs with
  | nil => intro st; simp [mark_messages_as_read]
  | cons m xs ih =>
    intro st
    simp only [List.cons_append, mark_messages_as_read, List.append_eq]
    rw [ih]
    simp [List.append_assoc]

theorem mark_single_unknown (r : String) (st : List (Int × PMsg)) (M : Int)
    (h : dlookup st M = none) :
    mark_messages_as_read r st [M] = (st, []) := by
  simp [mark_messages_as_read, markOne, h]

theorem mark_single_wrong_recipient (r : String) (st : List (Int × PMsg))
    (M : Int) (meta : PMsg) (h : dlookup st M = some meta)
    (hrec : ¬ meta.recipient_sid = r) :
    mark_messages_as_read r st [M] = (st, []) := by
  simp [mark_messages_as_read, markOne, h, hrec]

theorem mark_single_seen (r : String) (st : List (Int × PMsg)) (M : Int)
    (meta : PMsg) (h : dlookup st M = some meta)
    (hseen : meta.status = "seen") :
    mark_messages_as_read r st [M] = (st, []) := by
  by_cases hrec : meta.recipient_sid = r
  · simp [mark_messages_as_read, markOne, h, hrec, hseen]
  · simp [mark_messages_as_read, markOne, h, hrec]

theorem mark_single_qualify (r : String) (st : List (Int × PMsg)) (M : Int)
    (meta : PMsg) (h : dlookup st M = some meta)
    (hrec : meta.recipient_sid = r) (hseen : ¬ meta.status = "seen") :
    mark_messages_as_read r st [M]
      = (dinsert st M { meta with status := "seen" },
         [(meta.sender_sid, M)]) := by
  simp [mark_messages_as_read, markOne, h, hrec, hseen]

theorem mark_twice_acks (r : String) (st : List (Int × PMsg)) (M : Int) :
    (mark_messages_as_read r (mark_messages_as_read r st [M]).1 [M]).2
      = [] := by
  cases h : dlookup st M with
  | none =>
    rw [mark_single_unknown r st M h, mark_single_unknown r st M h]
  | some meta =>
    by_cases hrec : meta.recipient_sid = r
    · by_cases hseen : meta.status = "seen"
      · rw [mark_single_seen r st M meta h hseen,
          mark_single_seen r st M meta h hseen]
      · rw [mark_single_qualify r st M meta h hrec hseen]
        have h2 : dlookup (dinsert st M { meta with status := "seen" }) M
            = some { meta with status := "seen" } :=
          dlookup_dinsert_self st M _
        rw [mark_single_seen r _ M { meta with status := "seen" } h2 rfl]
    · rw [mark_single_wrong_recipient r st M meta h hrec,
        mark_single_wrong_recipient r st M meta h hrec]

/-- C6: read-receipt processing is per-id: the batch is the sequential
composition of single-id steps with the acknowledgements concatenated; an
unknown id, an id whose recorded recipient is not the caller, or an id
already `"seen"` is skipped with no state change; a qualifying id has its
status set to `"seen"` with exactly one acknowledgement to the original
sender; and re-marking the same id by the same reader a second time yields
no acknowledgement at all. -/
theorem C6_read_receipts :
    (∀ (r : String) (st : List (Int × PMsg)) (xs ys : List Int),
        mark_messages_as_read r st (xs ++ ys)
          = ((mark_messages_as_read r (mark_messages_as_read r st xs).1
                ys).1,
             (mark_messages_as_read r st xs).2
               ++ (mark_messages_as_read r (mark_messages_as_read r st xs).1
                     ys).2))
    ∧ (∀ (r : String) (st : List (Int × PMsg)) (M : Int),
        dlookup st M = none → mark_messages_as_read r st [M] = (st, []))
    ∧ (∀ (r : String) (st : List (Int × PMsg)) (M : Int) (meta : PMsg),
        dlookup st M = some meta → ¬ meta.recipient_sid = r →
        mark_messages_as_read r st [M] = (st, []))
    ∧ (∀ (r : String) (st : List (Int × PMsg)) (M : Int) (meta : PMsg),
        dlookup st M = some meta → meta.status = "seen" →
        mark_messages_as_read r st [M] = (st, []))
    ∧ (∀ (r : String) (st : List (Int × PMsg)) (M : Int) (meta : PMsg),
        dlookup st M = some meta → meta.recipient_sid = r →
        ¬ meta.status = "seen" →
        mark_messages_as_read r st [M]
          = (dinsert st M { meta with status := "seen" },
             [(meta.sender_sid, M)]))
    ∧ (∀ (r : String) (st : List (Int × PMsg)) (M : Int),
        (mark_messages_as_read r
          (mark_messages_as_read r st [M]).1 [M]).2 = []) := by
  exact ⟨fun r st xs ys => mark_batch r ys xs st,
    mark_single_unknown, mark_single_wrong_recipient, mark_single_seen,
    mark_single_qualify, mark_twice_acks⟩

/-- Witness for C6: a delivered message marked read by its recipient notifies
the sender once; marking it again notifies nobody. -/
theorem C6_witness :
    mark_messages_as_read "bob" [((3 : Int), ⟨"sa", "bob", "sent"⟩)] [3]
      = ([((3 : Int), ⟨"sa", "bob", "seen"⟩)], [("sa", (3 : Int))])
    ∧ (mark_messages_as_read "bob"
        (mark_messages_as_read "bob"
          [((3 : Int), ⟨"sa", "bob", "sent"⟩)] [3]).1 [3]).2 = [] := by
  constructor
  · have h := C6_read_receipts.2.2.2.2.1 "bob"
      [((3 : Int), ⟨"sa", "bob", "sent"⟩)] 3 ⟨"sa", "bob", "sent"⟩
      (by decide) rfl (by decide)
    rw [h]
    decide
  · exact C6_read_receipts.2.2.2.2.2 "bob"
      [((3 : Int), ⟨"sa", "bob", "sent"⟩)] 3

/-! ## C7: disconnect of a registered user -/

/-- C7: evaluation of `ConnectionHandler.on_disconnect` at a registered user:
the display-name mapping and the stored session key are removed and the
updated roster is broadcast, but instead of the synthetic "alice has left"
system notification the handler raises `NameError` (its "Send system
message" block reads the undefined variable `file_path`), so no such
notification is ever emitted. -/
theorem C7_disconnect_eval :
    on_disconnect ⟨[("s1", "alice"), ("s2", "bob")], [("s1", [7])]⟩ "s1"
      = (([SrvOut.updateUserList ["bob"]],
          Except.error "NameError: name 'file_path' is not defined"),
         ⟨[("s2", "bob")], []⟩) := by
  rfl

/-! ## C3: client send gating -/

/-- C3 counterexample: in the client state where the session key has been
generated (set at connect time) but the handshake acknowledgment
`session_key_ok` has not yet been observed (`session_ready = false`), the
outbound secure sends are NOT rejected: the public and private encrypted
sends produce a payload for emission and the file-chunk send emits its
chunks, refuting the claim that such sends are rejected locally with
nothing transmitted. -/
theorem C3_counterexample :
    (send_public_message (fun d _ => (d, [0])) ⟨some [1], false⟩ "hi"
        none).isOk = true
    ∧ (send_private_message (fun d _ => (d, [0])) ⟨some [1], false⟩ "bob"
        "hi" none).isOk = true
    ∧ (send_file_chunks (fun d _ => (d, [0])) "t9" ⟨some [1], false⟩ [5]
        "f.txt" none).1 = some "t9"
    ∧ (send_file_chunks (fun d _ => (d, [0])) "t9" ⟨some [1], false⟩ [5]
        "f.txt" none).2.1
      = [⟨"public_file_chunk", "t9", 0, [5], true,
          some ⟨"f.txt", 1, 1, 65536, [0]⟩, none⟩] := by
  refine ⟨rfl, rfl, ?_, ?_⟩ <;> decide

theorem send_public_no_key (aesEnc : Bytes → Bytes → Bytes × Bytes)
    (sess : CSession) (text : String) (f : Option FileRef)
    (h : truthyBytes sess.session_aes_key = false) :
    send_public_message aesEnc sess text f
      = .error "Session key not established" := by
  simp [send_public_message, h]

theorem send_private_no_key (aesEnc : Bytes → Bytes → Bytes × Bytes)
    (sess : CSession) (recipient text : String) (f : Option FileRef)
    (h : truthyBytes sess.session_aes_key = false) :
    send_private_message aesEnc sess recipient text f
      = .error "Session key not established" := by
  simp [send_private_message, h]

theorem send_file_no_key (aesEnc : Bytes → Bytes → Bytes × Bytes)
    (tid : String) (sess : CSession) (data : Bytes) (fname : String)
    (r : Option String) (h : truthyBytes sess.session_aes_key = false)
    (hf : ¬ fname = "") :
    send_file_chunks aesEnc tid sess data fname r
      = (none, [],
         ["Session key not established; cannot send file securely."]) := by
  simp [send_file_chunks, h, hf]

theorem send_public_with_key (aesEnc : Bytes → Bytes → Bytes × Bytes)
    (sess : CSession) (text : String) (f : Option FileRef)
    (h : truthyBytes sess.session_aes_key = true) :
    (send_public_message aesEnc sess text f).isOk = true := by
  simp [send_public_message, h, Except.isOk, Except.toBool]

theorem send_private_with_key (aesEnc : Bytes → Bytes → Bytes × Bytes)
    (sess : CSession) (recipient text : String) (f : Option FileRef)
    (h : truthyBytes sess.session_aes_key = true) :
    (send_private_message aesEnc sess recipient text f).isOk = true := by
  simp [send_private_message, h, Except.isOk, Except.toBool]

theorem send_file_with_key (aesEnc : Bytes → Bytes → Bytes × Bytes)
    (tid : String) (sess : CSession) (data : Bytes) (fname : String)
    (r : Option String) (h : truthyBytes sess.session_aes_key = true)
    (hf : ¬ fname = "")
    (hct : ¬ (aesEnc data (sess.session_aes_key.getD [])).1 = []) :
    (send_file_chunks aesEnc tid sess data fname r).1 = some tid
    ∧ ¬ (send_file_chunks aesEnc tid sess data fname r).2.1 = [] := by
  unfold send_file_chunks
  rw [if_neg hf, if_neg (by simp [h])]
  cases hc : (aesEnc data (sess.session_aes_key.getD [])).1 with
  | nil => exact absurd hc hct
  | cons c cs =>
    have h65 : (65536 : Nat) = 65535 + 1 := rfl
    simp only [hc, h65, chunksOf_cons]
    simp

/-- C3 (amended): an outbound secure send is rejected locally — with nothing
handed to the transport — precisely when the locally stored session key is
unset; the handshake-ack flag `session_ready` is never consulted, and since
the key is assigned at generation time during `connect`, before
`session_key_ok` arrives, sends already proceed in that window. Rejection
iff no key (plus, for files, an empty filename), for all three secure send
paths, with the ready flag arbitrary. -/
theorem C3_amended_key_gating :
    (∀ (aesEnc : Bytes → Bytes → Bytes × Bytes) (sess : CSession)
        (text : String) (f : Option FileRef),
        truthyBytes sess.session_aes_key = false →
        send_public_message aesEnc sess text f
          = .error "Session key not established")
    ∧ (∀ (aesEnc : Bytes → Bytes → Bytes × Bytes) (sess : CSession)
        (recipient text : String) (f : Option FileRef),
        truthyBytes sess.session_aes_key = false →
        send_private_message aesEnc sess recipient text f
          = .error "Session key not established")
    ∧ (∀ (aesEnc : Bytes → Bytes → Bytes × Bytes) (tid : String)
        (sess : CSession) (data : Bytes) (fname : String)
        (r : Option String),
        truthyBytes sess.session_aes_key = false → ¬ fname = "" →
        send_file_chunks aesEnc tid sess data fname r
          = (none, [],
             ["Session key not established; cannot send file securely."]))
    ∧ (∀ (aesEnc : Bytes → Bytes → Bytes × Bytes) (sess : CSession)
        (text : String) (f : Option FileRef),
        truthyBytes sess.session_aes_key = true →
        (send_public_message aesEnc sess text f).isOk = true)
    ∧ (∀ (aesEnc : Bytes → Bytes → Bytes × Bytes) (sess : CSession)
        (recipient text : String) (f : Option FileRef),
        truthyBytes sess.session_aes_key = true →
        (send_private_message aesEnc sess recipient text f).isOk = true)
    ∧ (∀ (aesEnc : Bytes → Bytes → Bytes × Bytes) (tid : String)
        (sess : CSession) (data : Bytes) (fname : String)
        (r : Option String),
        truthyBytes sess.session_aes_key = true → ¬ fname = "" →
        ¬ (aesEnc data (sess.session_aes_key.getD [])).1 = [] →
        (send_file_chunks aesEnc tid sess data fname r).1 = some tid
        ∧ ¬ (send_file_chunks aesEnc tid sess data fname r).2.1 = []) := by
  exact ⟨send_public_no_key, send_private_no_key, send_file_no_key,
    send_public_with_key, send_private_with_key, send_file_with_key⟩

/-- Witness for C3 (amended): a keyless state is rejected even with the ack
flag set, and a keyed state with the ack flag still unset proceeds. -/
theorem C3_amended_witness :
    send_public_message (fun d _ => (d, [0])) ⟨none, true⟩ "hi" none
      = .error "Session key not established"
    ∧ (send_private_message (fun d _ => (d, [0])) ⟨some [2], false⟩ "bob"
        "hi" none).isOk = true := by
  exact ⟨C3_amended_key_gating.1 (fun d _ => (d, [0])) ⟨none, true⟩ "hi"
      none rfl,
    C3_amended_key_gating.2.2.2.2.1 (fun d _ => (d, [0])) ⟨some [2], false⟩
      "bob" "hi" none rfl⟩

/-! ## C1: completion is driven by the arrival counter, not distinct indexes -/

/-- C1 counterexample: for transferId "t1" with `total_chunks = 2`, delivering
chunk 0 (with metadata) and then chunk 0 again completes the transfer
(`is_complete = true`, the file is decrypted and saved) although only the
duplicated index 0 is stored and index 1 ∈ [0, 2) is still missing: the
service counts arrivals (`received_chunks += 1`), not distinct indexes, so
the claimed completion condition `receivedChunks.size == totalChunks` is
violated by this sequence. -/
theorem C1_counterexample :
    (handle_chunk (fun ct _ _ => some ct)
        (handle_chunk (fun ct _ _ => some ct) [] "s1" "alice"
          ⟨"t1", some 0, [1], false,
            some ⟨some "f", some 3, some 2, some 64, some [9]⟩, none⟩
          (some [7]) false).2
        "s1" "alice" ⟨"t1", some 0, [2], false, none, none⟩ (some [7])
        false)
      = (⟨true, "", true, some ("t1_f", [2])⟩,
         [("t1", ⟨"s1", "alice", none, false, 2, 2,
            some ⟨some "f", some 3, some 2, some 64, some [9]⟩, some [9],
            [(0, [2])]⟩)]) := by
  decide

theorem hc_complete_bounds (decrypt : Bytes → Bytes → Bytes → Option Bytes)
    (st : FTState) (sid u : String) (d : ChunkIn) (key : Option Bytes)
    (p : Bool)
    (h : (handle_chunk decrypt st sid u d key p).1.is_complete = true) :
    ∃ t', dlookup (handle_chunk decrypt st sid u d key p).2 d.transfer_id
        = some t'
      ∧ 0 < t'.total_chunks ∧ t'.total_chunks ≤ t'.received_chunks := by
  unfold handle_chunk at h ⊢
  by_cases hval : ¬ (¬ d.transfer_id = "" ∧ d.chunk_index.isSome
      ∧ ¬ d.chunk_data.isEmpty)
  · rw [if_pos hval] at h
    simp at h
  · rw [if_neg hval] at h ⊢
    by_cases hguard :
        (hc_updated_transfer st sid u d p).total_chunks
          ≤ (hc_updated_transfer st sid u d p).received_chunks
        ∧ 0 < (hc_updated_transfer st sid u d p).total_chunks
    · rw [if_pos hguard] at h ⊢
      cases hds : decrypt_and_save decrypt d.transfer_id
          (hc_updated_transfer st sid u d p) key with
      | ok saved =>
        simp only [hds]
        exact ⟨hc_updated_transfer st sid u d p,
          dlookup_dinsert_self _ _ _, hguard.2, hguard.1⟩
      | error e =>
        rw [hds] at h
        simp at h
    · rw [if_neg hguard] at h
      simp at h

theorem decrypt_and_save_ok (decrypt : Bytes → Bytes → Bytes → Option Bytes)
    (tid : String) (t : STransfer) (key : Option Bytes)
    (hkey : truthyBytes key = true) (hm : t.metadata.isSome = true)
    (hiv : truthyBytes t.iv = true)
    (hdec : ∀ c k i, (decrypt c k i).isSome = true) :
    (decrypt_and_save decrypt tid t key).isOk = true := by
  unfold decrypt_and_save
  rw [if_neg (by simp [hkey])]
  obtain ⟨m, hm'⟩ := Option.isSome_iff_exists.mp hm
  obtain ⟨pt, hpt⟩ := Option.isSome_iff_exists.mp
    (hdec (reassembleChunks t.encrypted_chunks) (key.getD [])
      (t.iv.getD []))
  simp [hm', hiv, hpt, Except.isOk, Except.toBool]

theorem hc_duplicate_completes (decrypt : Bytes → Bytes → Bytes → Option Bytes)
    (st : FTState) (t : STransfer) (tid sid u : String) (idx : Nat)
    (data : Bytes) (last p : Bool) (r : Option String) (key : Option Bytes)
    (ht : dlookup st tid = some t) (htid : ¬ tid = "")
    (hdata : ¬ data = ([] : Bytes))
    (hcnt : t.total_chunks ≤ t.received_chunks + 1)
    (htot : 0 < t.total_chunks)
    (hkey : truthyBytes key = true)
    (hiv : truthyBytes t.iv = true)
    (hm : t.metadata.isSome = true)
    (hdec : ∀ c k i, (decrypt c k i).isSome = true) :
    (handle_chunk decrypt st sid u ⟨tid, some idx, data, last, none, r⟩ key
      p).1.is_complete = true := by
  have ht₂ : hc_updated_transfer st sid u
      ⟨tid, some idx, data, last, none, r⟩ p
      = { t with received_chunks := t.received_chunks + 1,
                 encrypted_chunks := dinsert t.encrypted_chunks idx data } := by
    simp [hc_updated_transfer, ht]
  have hval : ¬ ¬ (¬ (ChunkIn.mk tid (some idx) data last none r).transfer_id
      = "" ∧ (ChunkIn.mk tid (some idx) data last none r).chunk_index.isSome
      ∧ ¬ (ChunkIn.mk tid (some idx) data last none
            r).chunk_data.isEmpty) := by
    simp only [not_not]
    refine ⟨htid, rfl, ?_⟩
    simpa [List.isEmpty_iff] using hdata
  unfold handle_chunk
  rw [if_neg hval, ht₂]
  rw [if_pos (by exact ⟨by simpa using hcnt, by simpa using htot⟩)]
  cases hds : decrypt_and_save decrypt tid
      { t with received_chunks := t.received_chunks + 1,
               encrypted_chunks := dinsert t.encrypted_chunks idx data }
      key with
  | ok saved => simp [hds]
  | error e =>
    have hok := decrypt_and_save_ok decrypt tid
      { t with received_chunks := t.received_chunks + 1,
               encrypted_chunks := dinsert t.encrypted_chunks idx data }
      key hkey (by simpa using hm) (by simpa using hiv) hdec
    rw [hds] at hok
    simp [Except.isOk, Except.toBool] at hok

/-- C1 (amended): completion of a server-side transfer is driven by the
per-transfer arrival counter, which counts every accepted chunk event
including duplicated indexes — not by the number of distinct stored
indexes. Whenever `handle_chunk` reports completion, the stored entry's
counter has reached `total_chunks > 0`; conversely a valid chunk bearing
ANY index — in particular a duplicate of an already-stored index, with
other indexes still missing — completes a transfer whose counter is one
short of `total_chunks`, provided the key, IV and decryption succeed. -/
theorem C1_amended_counter_completion :
    (∀ (decrypt : Bytes → Bytes → Bytes → Option Bytes) (st : FTState)
        (sid u : String) (d : ChunkIn) (key : Option Bytes) (p : Bool),
        (handle_chunk decrypt st sid u d key p).1.is_complete = true →
        ∃ t', dlookup (handle_chunk decrypt st sid u d key p).2
            d.transfer_id = some t'
          ∧ 0 < t'.total_chunks ∧ t'.total_chunks ≤ t'.received_chunks)
    ∧ (∀ (decrypt : Bytes → Bytes → Bytes → Option Bytes) (st : FTState)
        (t : STransfer) (tid sid u : String) (idx : Nat) (data : Bytes)
        (last p : Bool) (r : Option String) (key : Option Bytes),
        dlookup st tid = some t → ¬ tid = "" → ¬ data = ([] : Bytes) →
        t.total_chunks ≤ t.received_chunks + 1 → 0 < t.total_chunks →
        truthyBytes key = true → truthyBytes t.iv = true →
        t.metadata.isSome = true →
        (∀ c k i, (decrypt c k i).isSome = true) →
        (handle_chunk decrypt st sid u ⟨tid, some idx, data, last, none, r⟩
          key p).1.is_complete = true) :=
  ⟨hc_complete_bounds, hc_duplicate_completes⟩

/-- Witness for C1 (amended): a transfer one arrival short of its
`total_chunks = 2` is completed by a second copy of chunk 0 even though
index 1 is still missing. -/
theorem C1_witness :
    (handle_chunk (fun ct _ _ => some ct)
        [("t1", ⟨"s1", "alice", none, false, 2, 1,
          some ⟨some "f", some 3, some 2, some 64, some [9]⟩, some [9],
          [(0, [1])]⟩)]
        "s1" "alice" ⟨"t1", some 0, [2], false, none, none⟩ (some [7])
        false).1.is_complete = true := by
  exact C1_amended_counter_completion.2 (fun ct _ _ => some ct)
    [("t1", ⟨"s1", "alice", none, false, 2, 1,
      some ⟨some "f", some 3, some 2, some 64, some [9]⟩, some [9],
      [(0, [1])]⟩)]
    ⟨"s1", "alice", none, false, 2, 1,
      some ⟨some "f", some 3, some 2, some 64, some [9]⟩, some [9],
      [(0, [1])]⟩
    "t1" "s1" "alice" 0 [2] false false none (some [7])
    (by decide) (by decide) (by decide) (by decide) (by decide) rfl rfl rfl
    (fun c k i => rfl)

/-! ## C2: late chunks after completion are not suppressed -/

/-- C2 counterexample: a one-chunk transfer "t2" completes, relays its
plaintext chunk and is purged; afterwards, a chunk bearing the same
transferId is NOT a no-op: a later non-final chunk re-creates transfer
state (a fresh entry with counter 1), and re-delivering chunk 0 with its
metadata triggers a second relay of the same transferId — refuting the
claimed no-state-change / no-second-relay property. -/
theorem C2_counterexample :
    (fh_handle_file_chunk (fun ct _ _ => some ct)
        ⟨[("s1", "alice")], [("s1", [7])]⟩ [] "s1"
        ⟨"t2", some 0, [1, 2, 3], true,
          some ⟨some "f", some 3, some 1, some 64, some [9]⟩, none⟩ false)
      = ([FHOut.fileChunk
            ⟨none, "t2", 0, [1, 2, 3], true,
              some ⟨"f", 3, 1, 64, "alice", false, ""⟩⟩], [])
    ∧ (fh_handle_file_chunk (fun ct _ _ => some ct)
        ⟨[("s1", "alice")], [("s1", [7])]⟩
        (fh_handle_file_chunk (fun ct _ _ => some ct)
          ⟨[("s1", "alice")], [("s1", [7])]⟩ [] "s1"
          ⟨"t2", some 0, [1, 2, 3], true,
            some ⟨some "f", some 3, some 1, some 64, some [9]⟩, none⟩
          false).2
        "s1" ⟨"t2", some 1, [9], false, none, none⟩ false)
      = ([], [("t2", ⟨"s1", "alice", none, false, 0, 1, none, none,
                [(1, [9])]⟩)])
    ∧ (fh_handle_file_chunk (fun ct _ _ => some ct)
        ⟨[("s1", "alice")], [("s1", [7])]⟩
        (fh_handle_file_chunk (fun ct _ _ => some ct)
          ⟨[("s1", "alice")], [("s1", [7])]⟩ [] "s1"
          ⟨"t2", some 0, [1, 2, 3], true,
            some ⟨some "f", some 3, some 1, some 64, some [9]⟩, none⟩
          false).2
        "s1"
        ⟨"t2", some 0, [1, 2, 3], true,
          some ⟨some "f", some 3, some 1, some 64, some [9]⟩, none⟩
        false).1
      = [FHOut.fileChunk
          ⟨none, "t2", 0, [1, 2, 3], true,
            some ⟨"f", 3, 1, 64, "alice", false, ""⟩⟩] := by
  refine ⟨?_, ?_, ?_⟩ <;> decide

theorem hc_entry_dep (decrypt : Bytes → Bytes → Bytes → Option Bytes)
    (sid u : String) (d : ChunkIn) (key : Option Bytes) (p : Bool)
    {s₁ s₂ : FTState}
    (h : dlookup s₁ d.transfer_id = dlookup s₂ d.transfer_id) :
    (handle_chunk decrypt s₁ sid u d key p).1
        = (handle_chunk decrypt s₂ sid u d key p).1
    ∧ dlookup (handle_chunk decrypt s₁ sid u d key p).2 d.transfer_id
        = dlookup (handle_chunk decrypt s₂ sid u d key p).2 d.transfer_id := by
  have hT : hc_updated_transfer s₁ sid u d p
      = hc_updated_transfer s₂ sid u d p := by
    unfold hc_updated_transfer
    rw [h]
  unfold handle_chunk
  by_cases hval : ¬ (¬ d.transfer_id = "" ∧ d.chunk_index.isSome
      ∧ ¬ d.chunk_data.isEmpty)
  · rw [if_pos hval, if_pos hval]
    exact ⟨rfl, h⟩
  · rw [if_neg hval, if_neg hval, hT]
    by_cases hguard :
        (hc_updated_transfer s₂ sid u d p).total_chunks
          ≤ (hc_updated_transfer s₂ sid u d p).received_chunks
        ∧ 0 < (hc_updated_transfer s₂ sid u d p).total_chunks
    · rw [if_pos hguard, if_pos hguard]
      cases hds : decrypt_and_save decrypt d.transfer_id
          (hc_updated_transfer s₂ sid u d p) key with
      | ok saved =>
        simp only [hds]
        exact ⟨trivial, by rw [dlookup_dinsert_self, dlookup_dinsert_self]⟩
      | error e =>
        simp only [hds]
        exact ⟨trivial, by rw [dlookup_dremove_self, dlookup_dremove_self]⟩
    · rw [if_neg hguard, if_neg hguard]
      exact ⟨rfl, by rw [dlookup_dinsert_self, dlookup_dinsert_self]⟩

theorem bc_entry_dep (svc : UserSvc) (tid : String) (pt : Bytes)
    (u : String) {f₁ f₂ : FTState} (h : dlookup f₁ tid = dlookup f₂ tid) :
    (broadcast_file svc f₁ tid pt u).1 = (broadcast_file svc f₂ tid pt u).1
    ∧ dlookup (broadcast_file svc f₁ tid pt u).2 tid
        = dlookup (broadcast_file svc f₂ tid pt u).2 tid := by
  unfold broadcast_file
  rw [h]
  cases hl : dlookup f₂ tid with
  | none =>
    simp only [hl]
    exact ⟨trivial, h.trans hl⟩
  | some t =>
    simp only [hl]
    exact ⟨trivial, by rw [dlookup_dremove_self, dlookup_dremove_self]⟩

theorem fh_entry_dep (decrypt : Bytes → Bytes → Bytes → Option Bytes)
    (svc : UserSvc) (sid : String) (d : ChunkIn) (p : Bool)
    {s₁ s₂ : FTState}
    (h : dlookup s₁ d.transfer_id = dlookup s₂ d.transfer_id) :
    (fh_handle_file_chunk decrypt svc s₁ sid d p).1
        = (fh_handle_file_chunk decrypt svc s₂ sid d p).1
    ∧ dlookup (fh_handle_file_chunk decrypt svc s₁ sid d p).2 d.transfer_id
        = dlookup (fh_handle_file_chunk decrypt svc s₂ sid d p).2
            d.transfer_id := by
  obtain ⟨hres, hpost⟩ := hc_entry_dep decrypt sid (get_username svc sid) d
    (get_session_key svc sid) p h
  simp only [fh_handle_file_chunk]
  by_cases hks : ¬ truthyBytes (get_session_key svc sid) = true
  · rw [if_pos hks, if_pos hks]
    exact ⟨rfl, h⟩
  · rw [if_neg hks, if_neg hks, hres]
    by_cases hsucc : ¬ (handle_chunk decrypt s₂ sid (get_username svc sid)
        d (get_session_key svc sid) p).1.success = true
    · rw [if_pos hsucc, if_pos hsucc]
      exact ⟨rfl, hpost⟩
    · rw [if_neg hsucc, if_neg hsucc]
      by_cases hcomp : ¬ (handle_chunk decrypt s₂ sid (get_username svc sid)
          d (get_session_key svc sid) p).1.is_complete = true
      · rw [if_pos hcomp, if_pos hcomp]
        exact ⟨rfl, hpost⟩
      · rw [if_neg hcomp, if_neg hcomp]
        exact bc_entry_dep svc d.transfer_id _ (get_username svc sid) hpost

theorem fh_relay_purges (decrypt : Bytes → Bytes → Bytes → Option Bytes)
    (svc : UserSvc) (st : FTState) (sid : String) (d : ChunkIn) (p : Bool)
    (r : RelayOut)
    (h : FHOut.fileChunk r ∈ (fh_handle_file_chunk decrypt svc st sid d
      p).1) :
    dlookup (fh_handle_file_chunk decrypt svc st sid d p).2 d.transfer_id
      = none := by
  simp only [fh_handle_file_chunk] at h ⊢
  by_cases hks : ¬ truthyBytes (get_session_key svc sid) = true
  · rw [if_pos hks] at h
    simp at h
  · rw [if_neg hks] at h ⊢
    by_cases hsucc : ¬ (handle_chunk decrypt st sid (get_username svc sid)
        d (get_session_key svc sid) p).1.success = true
    · rw [if_pos hsucc] at h
      simp at h
    · rw [if_neg hsucc] at h ⊢
      by_cases hcomp : ¬ (handle_chunk decrypt st sid (get_username svc sid)
          d (get_session_key svc sid) p).1.is_complete = true
      · rw [if_pos hcomp] at h
        simp at h
      · rw [if_neg hcomp] at h ⊢
        unfold broadcast_file at h ⊢
        cases hl : dlookup (handle_chunk decrypt st sid
            (get_username svc sid) d (get_session_key svc sid) p).2
            d.transfer_id with
        | none =>
          rw [hl] at h
          simp at h
        | some t =>
          simp only [hl]
          exact dlookup_dremove_self _ _

/-- C2 (amended): after a transfer's chunks are relayed its entry is purged
(the transferId maps to nothing in the post-state); but a further chunk
bearing that transferId is not ignored — processing depends only on the
entry currently stored under that transferId, so once the entry is gone
the chunk is handled exactly like the first chunk of a brand-new transfer:
it re-creates state and can trigger a second completion, relay, or error
for the same transferId. -/
theorem C2_amended_late_chunks :
    (∀ (decrypt : Bytes → Bytes → Bytes → Option Bytes) (svc : UserSvc)
        (st : FTState) (sid : String) (d : ChunkIn) (p : Bool)
        (r : RelayOut),
        FHOut.fileChunk r ∈ (fh_handle_file_chunk decrypt svc st sid d
          p).1 →
        dlookup (fh_handle_file_chunk decrypt svc st sid d p).2
          d.transfer_id = none)
    ∧ (∀ (decrypt : Bytes → Bytes → Bytes → Option Bytes) (svc : UserSvc)
        (sid : String) (d : ChunkIn) (p : Bool) (s₁ s₂ : FTState),
        dlookup s₁ d.transfer_id = dlookup s₂ d.transfer_id →
        (fh_handle_file_chunk decrypt svc s₁ sid d p).1
            = (fh_handle_file_chunk decrypt svc s₂ sid d p).1
        ∧ dlookup (fh_handle_file_chunk decrypt svc s₁ sid d p).2
              d.transfer_id
            = dlookup (fh_handle_file_chunk decrypt svc s₂ sid d p).2
                d.transfer_id) :=
  ⟨fh_relay_purges,
   fun decrypt svc sid d p _ _ h => fh_entry_dep decrypt svc sid d p h⟩

/-- Witness for C2 (amended): the completed one-chunk run is purged, and a
late chunk is processed from the purged state exactly as from the empty
transfer map. -/
theorem C2_witness :
    dlookup (fh_handle_file_chunk (fun ct _ _ => some ct)
        ⟨[("s1", "alice")], [("s1", [7])]⟩ [] "s1"
        ⟨"t2", some 0, [1, 2, 3], true,
          some ⟨some "f", some 3, some 1, some 64, some [9]⟩, none⟩
        false).2 "t2" = none
    ∧ (fh_handle_file_chunk (fun ct _ _ => some ct)
        ⟨[("s1", "alice")], [("s1", [7])]⟩
        [("x", ⟨"s9", "zoe", none, false, 5, 1, none, none, []⟩)] "s1"
        ⟨"t2", some 1, [9], false, none, none⟩ false).1
      = (fh_handle_file_chunk (fun ct _ _ => some ct)
          ⟨[("s1", "alice")], [("s1", [7])]⟩ [] "s1"
          ⟨"t2", some 1, [9], false, none, none⟩ false).1 := by
  constructor
  · exact C2_amended_late_chunks.1 (fun ct _ _ => some ct)
      ⟨[("s1", "alice")], [("s1", [7])]⟩ [] "s1"
      ⟨"t2", some 0, [1, 2, 3], true,
        some ⟨some "f", some 3, some 1, some 64, some [9]⟩, none⟩ false
      ⟨none, "t2", 0, [1, 2, 3], true,
        some ⟨"f", 3, 1, 64, "alice", false, ""⟩⟩
      (by decide)
  · exact (C2_amended_late_chunks.2 (fun ct _ _ => some ct)
      ⟨[("s1", "alice")], [("s1", [7])]⟩ "s1"
      ⟨"t2", some 1, [9], false, none, none⟩ false
      [("x", ⟨"s9", "zoe", none, false, 5, 1, none, none, []⟩)] []
      (by decide)).1

/-! ## C4: reassembly in index order, invariant under arrival order -/

theorem dinsert_of_fresh {K V : Type} [DecidableEq K] {m : List (K × V)}
    {k : K} (h : k ∉ dkeys m) (v : V) : dinsert m k v = m ++ [(k, v)] := by
  unfold dinsert
  have hany : m.any (fun p => p.1 = k) = false := by
    simp only [List.any_eq_false, decide_eq_true_eq]
    intro p hp hpk
    exact h (List.mem_map.mpr ⟨p, hp, hpk⟩)
  rw [if_neg (by simp [hany])]

theorem foldl_dinsert_fresh {K V : Type} [DecidableEq K] :
    ∀ (a m : List (K × V)), (dkeys (m ++ a)).Nodup →
    a.foldl (fun acc kv => dinsert acc kv.1 kv.2) m = m ++ a := by
  intro a
  induction a with
  | nil => intro m _; simp
  | cons kv a ih =>
    intro m h
    have hkeys : (dkeys m ++ kv.1 :: dkeys a).Nodup := by
      simpa [dkeys] using h
    have hk : kv.1 ∉ dkeys m := by
      intro hmem
      exact (List.disjoint_of_nodup_append hkeys) hmem
        (List.mem_cons_self _ _)
    rw [List.foldl_cons, dinsert_of_fresh hk]
    have h' : (dkeys ((m ++ [kv]) ++ a)).Nodup := by
      rw [List.append_assoc]
      simpa using h
    rw [ih (m ++ [kv]) h']
    simp

theorem buildChunkDict_eq {a : List (Nat × Bytes)}
    (hnd : (dkeys a).Nodup) : buildChunkDict a = a := by
  have h := foldl_dinsert_fresh a [] (by simpa using hnd)
  simpa [buildChunkDict] using h

theorem dlookup_of_mem_nodup {K V : Type} [DecidableEq K]
    {m : List (K × V)} (hnd : (dkeys m).Nodup) {k : K} {v : V}
    (hmem : (k, v) ∈ m) : dlookup m k = some v := by
  induction m with
  | nil => cases hmem
  | cons q m ih =>
    have hnd' : q.1 ∉ dkeys m ∧ (dkeys m).Nodup := by
      simpa [dkeys] using hnd
    rw [dlookup_cons]
    rcases List.mem_cons.mp hmem with heq | hmem'
    · rw [← heq]
      simp
    · have hq : ¬ q.1 = k := by
        intro hqk
        exact hnd'.1 (hqk ▸ List.mem_map.mpr ⟨(k, v), hmem', rfl⟩)
      rw [if_neg hq]
      exact ih hnd'.2 hmem'

theorem dlookup_perm {K V : Type} [DecidableEq K] {a b : List (K × V)}
    (hnd : (dkeys a).Nodup) (hp : a.Perm b) (k : K) :
    dlookup a k = dlookup b k := by
  have hndb : (dkeys b).Nodup := ((hp.map Prod.fst).nodup_iff).mp hnd
  cases hl : dlookup a k with
  | some v =>
    exact (dlookup_of_mem_nodup hndb
      (hp.mem_iff.mp (dlookup_some_mem hl))).symm
  | none =>
    have hnone : ∀ p ∈ b, ¬ p.1 = k := fun p hpb =>
      (dlookup_eq_none_iff a k).mp hl p (hp.mem_iff.mpr hpb)
    exact ((dlookup_eq_none_iff b k).mpr hnone).symm

theorem reassembleChunks_perm {a b : List (Nat × Bytes)}
    (hnd : (dkeys a).Nodup) (hp : a.Perm b) :
    reassembleChunks a = reassembleChunks b := by
  unfold reassembleChunks
  have hkeys : (dkeys a).Perm (dkeys b) := hp.map Prod.fst
  have hsorted : (dkeys a).insertionSort (· ≤ ·)
      = (dkeys b).insertionSort (· ≤ ·) :=
    List.eq_of_perm_of_sorted
      ((List.perm_insertionSort _ _).trans
        (hkeys.trans (List.perm_insertionSort _ _).symm))
      (List.sorted_insertionSort _ _) (List.sorted_insertionSort _ _)
  have hfun : (fun i => (dlookup a i).getD ([] : Bytes))
      = (fun i => (dlookup b i).getD []) :=
    funext fun i => by rw [dlookup_perm hnd hp i]
  rw [hsorted, hfun]

theorem keys_map_lookup_len {a : List (Nat × Bytes)}
    (hnd : (dkeys a).Nodup) :
    (dkeys a).map (fun i => ((dlookup a i).getD []).length)
      = a.map (fun kv => kv.2.length) := by
  induction a with
  | nil => rfl
  | cons q m ih =>
    have hnd' : q.1 ∉ dkeys m ∧ (dkeys m).Nodup := by
      simpa [dkeys] using hnd
    have hhead : ((dlookup (q :: m) q.1).getD []).length = q.2.length := by
      rw [dlookup_cons, if_pos rfl]
      rfl
    have htail : (dkeys m).map
        (fun i => ((dlookup (q :: m) i).getD []).length)
        = (dkeys m).map (fun i => ((dlookup m i).getD []).length) :=
      List.map_congr_left (fun i hi => by
        rw [dlookup_cons, if_neg (fun he => hnd'.1 (by rw [he]; exact hi))])
    show ((dlookup (q :: m) q.1).getD []).length
        :: (dkeys m).map (fun i => ((dlookup (q :: m) i).getD []).length)
      = q.2.length :: m.map (fun kv => kv.2.length)
    rw [hhead, htail, ih hnd'.2]

theorem reassembleChunks_length {a : List (Nat × Bytes)}
    (hnd : (dkeys a).Nodup) :
    (reassembleChunks a).length
      = (a.map (fun kv => kv.2.length)).sum := by
  unfold reassembleChunks
  rw [List.length_flatten, List.map_map]
  have hperm : ((dkeys a).insertionSort (· ≤ ·)).Perm (dkeys a) :=
    List.perm_insertionSort _ _
  have h1 := (hperm.map
    (fun i => ((dlookup a i).getD ([] : Bytes)).length)).sum_eq
  have h2 := keys_map_lookup_len hnd
  calc (((dkeys a).insertionSort (· ≤ ·)).map
          (List.length ∘ fun i => (dlookup a i).getD [])).sum
      = (((dkeys a).insertionSort (· ≤ ·)).map
          (fun i => ((dlookup a i).getD []).length)).sum := rfl
    _ = ((dkeys a).map (fun i => ((dlookup a i).getD []).length)).sum := h1
    _ = (a.map (fun kv => kv.2.length)).sum := by rw [h2]

theorem reassembleChunks_sortPairs {a : List (Nat × Bytes)}
    (hnd : (dkeys a).Nodup) :
    reassembleChunks a
      = ((a.insertionSort (fun x y => x.1 ≤ y.1)).map Prod.snd).flatten := by
  unfold reassembleChunks
  have hPp : (a.insertionSort (fun x y => x.1 ≤ y.1)).Perm a :=
    List.perm_insertionSort _ _
  haveI : IsTotal (Nat × Bytes) (fun x y => x.1 ≤ y.1) :=
    ⟨fun x y => Nat.le_total x.1 y.1⟩
  haveI : IsTrans (Nat × Bytes) (fun x y => x.1 ≤ y.1) :=
    ⟨fun _ _ _ h₁ h₂ => Nat.le_trans h₁ h₂⟩
  have hPsorted : List.Sorted (fun x y : Nat × Bytes => x.1 ≤ y.1)
      (a.insertionSort (fun x y => x.1 ≤ y.1)) :=
    List.sorted_insertionSort _ _
  have hfstsorted : List.Sorted (· ≤ ·)
      ((a.insertionSort (fun x y => x.1 ≤ y.1)).map Prod.fst) :=
    List.Pairwise.map _ (fun x y h => h) hPsorted
  have hfst : (a.insertionSort (fun x y => x.1 ≤ y.1)).map Prod.fst
      = (dkeys a).insertionSort (· ≤ ·) :=
    List.eq_of_perm_of_sorted
      ((hPp.map _).trans (List.perm_insertionSort _ _).symm)
      hfstsorted (List.sorted_insertionSort _ _)
  rw [← hfst, List.map_map]
  congr 1
  apply List.map_congr_left
  intro p hp
  have hpa : p ∈ a := hPp.subset hp
  have hmem : (p.1, p.2) ∈ a := by
    rw [Prod.mk.eta]
    exact hpa
  show (dlookup a p.1).getD [] = p.2
  rw [dlookup_of_mem_nodup hnd hmem]
  rfl

/-- C4: for a set of stored chunks with distinct indexes, reassembly
concatenates the chunks in increasing index order, so the result built
from any permutation of the arrival order is identical, the reassembled
byte length equals the sum of the individual chunk lengths, and the bytes
are exactly the concatenation of the chunks sorted by index. -/
theorem C4_reassembly_order_invariant (a b : List (Nat × Bytes))
    (hnd : (dkeys a).Nodup) (hp : a.Perm b) :
    reassembleArrivals a = reassembleArrivals b
    ∧ (reassembleArrivals a).length = (a.map (fun kv => kv.2.length)).sum
    ∧ reassembleArrivals a
        = ((a.insertionSort (fun x y => x.1 ≤ y.1)).map
            Prod.snd).flatten := by
  have hb : (dkeys b).Nodup := ((hp.map Prod.fst).nodup_iff).mp hnd
  unfold reassembleArrivals
  rw [buildChunkDict_eq hnd, buildChunkDict_eq hb]
  exact ⟨reassembleChunks_perm hnd hp, reassembleChunks_length hnd,
    reassembleChunks_sortPairs hnd⟩

/-- Witness for C4: three chunks delivered in the order [2, 0, 1] reassemble
to the same bytes as in the order [0, 1, 2], with total length the sum of
the chunk lengths. -/
theorem C4_witness :
    reassembleArrivals [(2, [5]), (0, [1, 2]), (1, [3, 4])]
        = reassembleArrivals [(0, [1, 2]), (1, [3, 4]), (2, [5])]
    ∧ (reassembleArrivals [(2, [5]), (0, [1, 2]), (1, [3, 4])]).length
        = 5 := by
  have h := C4_reassembly_order_invariant
    [(2, [5]), (0, [1, 2]), (1, [3, 4])]
    [(0, [1, 2]), (1, [3, 4]), (2, [5])]
    (by decide) (by decide)
  refine ⟨h.1, ?_⟩
  rw [h.2.1]
  decide

end Chatroom
